import Mathlib

/-!
Verification of `src/functions/get_kegg_pathways.py`.

The script's core is the function `get_filtered_kegg_pathways`: it fetches a
pathway library (a Python dict mapping pathway names to gene lists), returns
`{}` if the fetch raises, and otherwise keeps, for each pathway, the sorted
list of genes common to the query gene set and the pathway's gene set,
provided the intersection has at least `min_genes_per_pathway` elements.

We embed the function shallowly: a Python dict becomes an ordered association
list (Python dicts preserve insertion order), a Python set becomes a
duplicate-free list, the fetch becomes an `Except` argument, and the
hash-dependent enumeration order of `list(set.intersection(...))` is modelled
by an explicit enumeration parameter in a generalized variant.
-/

namespace KeggPathways

/-- A pathway library as returned by `gseapy.get_library`: an ordered mapping
from pathway name to gene list, embedded as an association list. -/
abbrev KeggLib := List (String × List String)

/-- The keys of a dict embedded as an association list. -/
def keys (d : KeggLib) : List String := d.map Prod.fst

/-- Python string comparison: lexicographic on the list of code points.
Stated via `String.toList` so that it is kernel-computable (Lean's builtin
`String` order goes through `String.ltb`, which does not reduce). -/
def strLE (a b : String) : Prop := a.toList ≤ b.toList

instance : DecidableRel strLE := fun a b =>
  inferInstanceAs (Decidable (a.toList ≤ b.toList))

theorem strLE_iff_le (a b : String) : strLE a b ↔ a ≤ b :=
  String.le_iff_toList_le.symm

instance : IsTrans String strLE :=
  ⟨fun _ _ _ h₁ h₂ => le_trans h₁ h₂⟩

instance : IsAntisymm String strLE :=
  ⟨fun _ _ h₁ h₂ => String.toList_inj.mp (le_antisymm h₁ h₂)⟩

instance : IsTotal String strLE :=
  ⟨fun a b => le_total a.toList b.toList⟩

/-- Python's `sorted` on a list of strings. -/
def sortGenes (l : List String) : List String := l.insertionSort strLE

/-- `common_genes = list(matched_gene_set.intersection(genes_in_pathway_set))`
in the canonical enumeration order: the elements of `matched_gene_set` (a
duplicate-free list) that also lie in `set(genes_in_pathway)`. -/
def common_genes (matched_gene_set genes_in_pathway : List String) :
    List String :=
  matched_gene_set.filter (fun g => g ∈ genes_in_pathway.dedup)

/-- The filtering loop of `get_filtered_kegg_pathways` (source lines 55-67):
for each pathway keep the sorted intersection when it meets the threshold. -/
def filterPathways (matched_gene_set : List String)
    (min_genes_per_pathway : Int) (all_kegg_pathways : KeggLib) : KeggLib :=
  all_kegg_pathways.filterMap (fun p =>
    let cg := common_genes matched_gene_set p.2
    if min_genes_per_pathway ≤ (cg.length : Int) then
      some (p.1, sortGenes cg)
    else
      none)

/-- `get_filtered_kegg_pathways` of the source. The external
`gseapy.get_library` call is an external collaborator, supplied as an
`Except` value: `Except.error e` models the call raising exception `e`, and
the `try/except` of the source returns the empty dict in that case. -/
def get_filtered_kegg_pathways (fetchResult : Except String KeggLib)
    (matched_gene_ids : List String) (min_genes_per_pathway : Int) : KeggLib :=
  let matched_gene_set := matched_gene_ids.dedup
  match fetchResult with
  | Except.error _ => []
  | Except.ok all_kegg_pathways =>
      filterPathways matched_gene_set min_genes_per_pathway all_kegg_pathways

/-- Generalization of `get_filtered_kegg_pathways` exposing the enumeration
order that Python's hash-based sets leave unspecified: `setEnum` enumerates
`set(matched_gene_ids)` and `interEnum` enumerates the intersection set
produced by `list(matched_gene_set.intersection(genes_in_pathway_set))`.
With both set to the identity this is definitionally
`get_filtered_kegg_pathways`. -/
def get_filtered_kegg_pathways_enum (setEnum interEnum : List String → List String)
    (fetchResult : Except String KeggLib)
    (matched_gene_ids : List String) (min_genes_per_pathway : Int) : KeggLib :=
  match fetchResult with
  | Except.error _ => []
  | Except.ok all_kegg_pathways =>
      all_kegg_pathways.filterMap (fun p =>
        let cg := interEnum ((setEnum matched_gene_ids.dedup).filter
          (fun g => g ∈ p.2.dedup))
        if min_genes_per_pathway ≤ (cg.length : Int) then
          some (p.1, sortGenes cg)
        else
          none)

/-- The cardinality of the intersection of the query gene set with a
pathway's gene set. -/
def interCard (q gs : List String) : Nat := (q.toFinset ∩ gs.toFinset).card

/-- The intersection of the query gene set with each pathway's gene set,
pathway by pathway. -/
def intersectionProfile (q : List String) (lib : KeggLib) :
    List (String × Finset String) :=
  lib.map (fun p => (p.1, q.toFinset ∩ p.2.toFinset))

/-- The spec's description of the core algorithm, stated over set
intersections alone: a threshold filter keeping each pathway whose
intersection has at least `m` elements, with the intersection listed in
ascending order. -/
def specThresholdFilter (inters : List (String × Finset String)) (m : Int) :
    KeggLib :=
  inters.filterMap (fun p =>
    if m ≤ (p.2.card : Int) then some (p.1, p.2.sort (· ≤ ·)) else none)

/-- The local variables of one call of `get_filtered_kegg_pathways`, threaded
explicitly through the filtering loop so that (non-)mutation of the
caller-visible values is observable in the embedding. -/
structure Env where
  matched_gene_ids : List String
  matched_gene_set : List String
  all_kegg_pathways : KeggLib
  filtered_pathways : KeggLib

/-- One iteration of the `for pathway_name, genes_in_pathway in
all_kegg_pathways.items()` loop, as a transition on the whole environment:
build `genes_in_pathway_set`, compute `common_genes`, and on success insert
the sorted list into `filtered_pathways` (a fresh key appended at the end,
as Python dict insertion does). -/
def loopBody (min_genes_per_pathway : Int) (env : Env)
    (p : String × List String) : Env :=
  let genes_in_pathway_set := p.2.dedup
  let cg := env.matched_gene_set.filter (fun g => g ∈ genes_in_pathway_set)
  if min_genes_per_pathway ≤ (cg.length : Int) then
    { env with filtered_pathways := env.filtered_pathways ++ [(p.1, sortGenes cg)] }
  else
    env

/-- A whole successful call, at the granularity of the environment: set up
the locals from the arguments and the fetched library, then run the loop. -/
def runFilterLoop (matched_gene_ids : List String) (min_genes_per_pathway : Int)
    (all_kegg_pathways : KeggLib) : Env :=
  let env0 : Env :=
    { matched_gene_ids := matched_gene_ids
      matched_gene_set := matched_gene_ids.dedup
      all_kegg_pathways := all_kegg_pathways
      filtered_pathways := [] }
  env0.all_kegg_pathways.foldl (loopBody min_genes_per_pathway) env0

/-! ### Basic lemmas about the embedded pieces -/

theorem common_genes_nodup (q gs : List String) :
    (common_genes q.dedup gs).Nodup :=
  (List.nodup_dedup q).filter _

theorem mem_common_genes (q gs : List String) (g : String) :
    g ∈ common_genes q.dedup gs ↔ g ∈ q ∧ g ∈ gs := by
  simp [common_genes, List.mem_filter, List.mem_dedup]

theorem common_genes_toFinset (q gs : List String) :
    (common_genes q.dedup gs).toFinset = q.toFinset ∩ gs.toFinset := by
  ext g
  simp [mem_common_genes, List.mem_toFinset]

theorem common_genes_length (q gs : List String) :
    (common_genes q.dedup gs).length = interCard q gs := by
  rw [interCard, ← common_genes_toFinset,
    List.toFinset_card_of_nodup (common_genes_nodup q gs)]

theorem sortGenes_perm (l : List String) : List.Perm (sortGenes l) l :=
  List.perm_insertionSort strLE l

theorem sortGenes_sorted (l : List String) : List.Sorted strLE (sortGenes l) :=
  List.sorted_insertionSort strLE l

theorem sortGenes_sorted_le (l : List String) :
    List.Sorted (· ≤ ·) (sortGenes l) :=
  (sortGenes_sorted l).imp (fun h => (strLE_iff_le _ _).mp h)

theorem sortGenes_eq_of_perm {l₁ l₂ : List String} (h : List.Perm l₁ l₂) :
    sortGenes l₁ = sortGenes l₂ :=
  List.eq_of_perm_of_sorted
    ((sortGenes_perm l₁).trans (h.trans (sortGenes_perm l₂).symm))
    (sortGenes_sorted l₁) (sortGenes_sorted l₂)

theorem sortGenes_common_eq_sort (q gs : List String) :
    sortGenes (common_genes q.dedup gs) =
      (q.toFinset ∩ gs.toFinset).sort (· ≤ ·) := by
  apply List.eq_of_perm_of_sorted (r := (· ≤ ·))
  · refine (sortGenes_perm _).trans
      (List.perm_of_nodup_nodup_toFinset_eq (common_genes_nodup q gs)
        (Finset.sort_nodup _ _) ?_)
    rw [common_genes_toFinset, Finset.sort_toFinset]
  · exact sortGenes_sorted_le _
  · exact Finset.sort_sorted _ _

/-- The filtering loop refines the spec's threshold filter over set
intersections. -/
theorem filterPathways_eq_spec (q : List String) (m : Int) (lib : KeggLib) :
    filterPathways q.dedup m lib =
      specThresholdFilter (intersectionProfile q lib) m := by
  rw [filterPathways, specThresholdFilter, intersectionProfile,
    List.filterMap_map]
  apply List.filterMap_congr
  intro p _
  simp only [Function.comp, common_genes_length q p.2,
    sortGenes_common_eq_sort q p.2, interCard]

theorem get_ok_eq_spec (lib : KeggLib) (q : List String) (m : Int) :
    get_filtered_kegg_pathways (Except.ok lib) q m =
      specThresholdFilter (intersectionProfile q lib) m :=
  filterPathways_eq_spec q m lib

theorem if_some_eq_some_iff {α : Type} {c : Prop} [Decidable c] {a b : α} :
    (if c then some a else none) = some b ↔ c ∧ a = b := by
  split <;> simp_all

/-- Membership in the filtered output, characterized through the library. -/
theorem mem_filterPathways {q : List String} {m : Int} {lib : KeggLib}
    {n : String} {v : List String} :
    (n, v) ∈ filterPathways q.dedup m lib ↔
      ∃ gs, (n, gs) ∈ lib ∧ m ≤ (interCard q gs : Int) ∧
        v = sortGenes (common_genes q.dedup gs) := by
  simp only [filterPathways, List.mem_filterMap, if_some_eq_some_iff,
    Prod.mk.injEq, common_genes_length]
  constructor
  · rintro ⟨⟨pn, pgs⟩, hp, hc, rfl, rfl⟩
    exact ⟨pgs, hp, hc, rfl⟩
  · rintro ⟨gs, hgs, hc, rfl⟩
    exact ⟨(n, gs), hgs, hc, rfl, rfl⟩

/-- Key membership in the filtered output. -/
theorem mem_keys_filterPathways {q : List String} {m : Int} {lib : KeggLib}
    {n : String} :
    n ∈ keys (filterPathways q.dedup m lib) ↔
      ∃ gs, (n, gs) ∈ lib ∧ m ≤ (interCard q gs : Int) := by
  simp only [keys, List.mem_map, Prod.exists]
  constructor
  · rintro ⟨a, b, hmem, rfl⟩
    obtain ⟨gs, hgs, hc, _⟩ := mem_filterPathways.mp hmem
    exact ⟨gs, hgs, hc⟩
  · rintro ⟨gs, hgs, hc⟩
    exact ⟨n, sortGenes (common_genes q.dedup gs),
      mem_filterPathways.mpr ⟨gs, hgs, hc, rfl⟩, rfl⟩

/-- In a dict (duplicate-free keys) a key determines its value. -/
theorem eq_of_nodupKeys {l : KeggLib} (h : (keys l).Nodup) {n : String}
    {a b : List String} (ha : (n, a) ∈ l) (hb : (n, b) ∈ l) : a = b := by
  induction l with
  | nil => cases ha
  | cons x t ih =>
    have hx : x.1 ∉ keys t ∧ (keys t).Nodup := by simpa [keys] using h
    rcases List.mem_cons.mp ha with ha1 | ha2 <;>
      rcases List.mem_cons.mp hb with hb1 | hb2
    · exact congrArg Prod.snd (ha1.trans hb1.symm)
    · have hn : x.1 = n := by rw [← ha1]
      exact absurd (hn ▸ List.mem_map_of_mem Prod.fst hb2) hx.1
    · have hn : x.1 = n := by rw [← hb1]
      exact absurd (hn ▸ List.mem_map_of_mem Prod.fst ha2) hx.1
    · exact ih hx.2 ha2 hb2

theorem filterPathways_cons (mset : List String) (m : Int)
    (p : String × List String) (t : KeggLib) :
    filterPathways mset m (p :: t) =
      filterPathways mset m [p] ++ filterPathways mset m t := by
  unfold filterPathways
  rw [← List.singleton_append, List.filterMap_append]

/-- One loop iteration appends the filter's output for that pathway and
touches nothing else in the environment. -/
theorem loopBody_eq (m : Int) (env : Env) (p : String × List String) :
    loopBody m env p =
      { env with filtered_pathways :=
          env.filtered_pathways ++ filterPathways env.matched_gene_set m [p] } := by
  simp only [loopBody, filterPathways, common_genes, List.filterMap_cons,
    List.filterMap_nil]
  by_cases hC :
      m ≤ ((env.matched_gene_set.filter (fun g => g ∈ p.2.dedup)).length : Int)
  · rw [if_pos hC, if_pos hC]
  · rw [if_neg hC, if_neg hC]
    simp

/-- Running the explicit loop appends exactly the filtered pathways and
touches no other part of the environment. -/
theorem foldl_loopBody (m : Int) (lib' : KeggLib) (env : Env) :
    lib'.foldl (loopBody m) env =
      { env with filtered_pathways :=
          env.filtered_pathways ++ filterPathways env.matched_gene_set m lib' } := by
  induction lib' generalizing env with
  | nil => simp [filterPathways]
  | cons p t ih =>
    rw [List.foldl_cons, loopBody_eq, ih]
    conv_rhs => rw [filterPathways_cons]
    simp [List.append_assoc]

theorem get_ok (lib : KeggLib) (q : List String) (m : Int) :
    get_filtered_kegg_pathways (Except.ok lib) q m =
      filterPathways q.dedup m lib := rfl

/-! ### The claims -/

/-- C1: a pathway name is a key of the returned dictionary if and only if it
is a key of the library mapping and the intersection of the query gene set
with that pathway's gene set has at least `min_genes_per_pathway`
elements. -/
theorem c1_keys_iff_overlap (lib : KeggLib) (q : List String) (m : Int)
    (n : String) (hnd : (keys lib).Nodup) :
    n ∈ keys (get_filtered_kegg_pathways (Except.ok lib) q m) ↔
      ∃ gs, (n, gs) ∈ lib ∧ m ≤ (interCard q gs : Int) := by
  rw [get_ok]
  exact mem_keys_filterPathways

theorem c1_keys_iff_overlap_witness :
    "P" ∈ keys (get_filtered_kegg_pathways
      (Except.ok [("P", ["A", "B", "C"]), ("Q", ["Z"])]) ["B", "A", "X"] 2) :=
  (c1_keys_iff_overlap [("P", ["A", "B", "C"]), ("Q", ["Z"])] ["B", "A", "X"]
    2 "P" (by decide)).mpr ⟨["A", "B", "C"], by decide, by decide⟩

/-- C2: the value stored for a retained pathway is duplicate-free and
contains exactly the genes that occur both in the caller-supplied query
collection and in that pathway's gene list from the library. -/
theorem c2_value_is_intersection (lib : KeggLib) (q : List String) (m : Int)
    (n : String) (v gs : List String) (hnd : (keys lib).Nodup)
    (hv : (n, v) ∈ get_filtered_kegg_pathways (Except.ok lib) q m)
    (hgs : (n, gs) ∈ lib) :
    v.Nodup ∧ ∀ g, g ∈ v ↔ g ∈ q ∧ g ∈ gs := by
  rw [get_ok] at hv
  obtain ⟨gs', hgs', _, rfl⟩ := mem_filterPathways.mp hv
  obtain rfl : gs' = gs := eq_of_nodupKeys hnd hgs' hgs
  refine ⟨(sortGenes_perm _).symm.nodup (common_genes_nodup q gs'), ?_⟩
  intro g
  rw [(sortGenes_perm _).mem_iff, mem_common_genes]

theorem c2_value_is_intersection_witness :
    (["A", "B"] : List String).Nodup ∧
      ("A" ∈ (["A", "B"] : List String) ↔
        "A" ∈ (["B", "A", "X"] : List String) ∧
          "A" ∈ (["A", "B", "C"] : List String)) :=
  ⟨(c2_value_is_intersection [("P", ["A", "B", "C"])] ["B", "A", "X"] 2 "P"
      ["A", "B"] ["A", "B", "C"] (by decide) (by decide) (by decide)).1,
    (c2_value_is_intersection [("P", ["A", "B", "C"])] ["B", "A", "X"] 2 "P"
      ["A", "B"] ["A", "B", "C"] (by decide) (by decide) (by decide)).2 "A"⟩

/-- C3: every gene list in the returned dictionary is sorted in ascending
order. -/
theorem c3_values_sorted (fetchResult : Except String KeggLib)
    (q : List String) (m : Int) (n : String) (v : List String)
    (hv : (n, v) ∈ get_filtered_kegg_pathways fetchResult q m) :
    List.Sorted (· ≤ ·) v := by
  cases fetchResult with
  | error e => cases hv
  | ok lib =>
    rw [get_ok] at hv
    obtain ⟨gs, _, _, rfl⟩ := mem_filterPathways.mp hv
    exact sortGenes_sorted_le _

theorem c3_values_sorted_witness :
    List.Sorted (· ≤ ·) (["A", "B"] : List String) :=
  c3_values_sorted (Except.ok [("P", ["B", "A", "C"])]) ["A", "B", "X"] 2 "P"
    ["A", "B"] (by decide)

/-- C4: if the external library fetch fails, `get_filtered_kegg_pathways`
returns the empty dictionary: the error is not propagated and no filtering
happens. -/
theorem c4_fetch_error_empty (e : String) (q : List String) (m : Int) :
    get_filtered_kegg_pathways (Except.error e) q m = [] := rfl

/-- Any enumeration orders of the hash sets produce the canonical result. -/
theorem enum_eq (setEnum interEnum : List String → List String)
    (hset : ∀ l, List.Perm (setEnum l) l)
    (hinter : ∀ l, List.Perm (interEnum l) l)
    (fetchResult : Except String KeggLib) (q : List String) (m : Int) :
    get_filtered_kegg_pathways_enum setEnum interEnum fetchResult q m =
      get_filtered_kegg_pathways fetchResult q m := by
  cases fetchResult with
  | error e => rfl
  | ok lib =>
    rw [get_ok]
    simp only [get_filtered_kegg_pathways_enum, filterPathways]
    apply List.filterMap_congr
    intro p _
    have hp : List.Perm
        (interEnum ((setEnum q.dedup).filter (fun g => g ∈ p.2.dedup)))
        (common_genes q.dedup p.2) :=
      (hinter _).trans ((hset q.dedup).filter _)
    rw [hp.length_eq, sortGenes_eq_of_perm hp]

/-- C5: the output is deterministic. The enumeration order of Python's
hash-based sets is the only run-to-run variation in the function body; any
two runs on equal fetched library, query collection, and threshold agree,
whatever enumeration orders their sets happen to use. -/
theorem c5_deterministic (sE₁ iE₁ sE₂ iE₂ : List String → List String)
    (h₁ : ∀ l, List.Perm (sE₁ l) l) (h₂ : ∀ l, List.Perm (iE₁ l) l)
    (h₃ : ∀ l, List.Perm (sE₂ l) l) (h₄ : ∀ l, List.Perm (iE₂ l) l)
    (fetchResult : Except String KeggLib) (q : List String) (m : Int) :
    get_filtered_kegg_pathways_enum sE₁ iE₁ fetchResult q m =
      get_filtered_kegg_pathways_enum sE₂ iE₂ fetchResult q m := by
  rw [enum_eq sE₁ iE₁ h₁ h₂, enum_eq sE₂ iE₂ h₃ h₄]

theorem c5_deterministic_witness :
    get_filtered_kegg_pathways_enum (fun l => l.reverse) (fun l => l.reverse)
        (Except.ok [("P", ["B", "A", "C"])]) ["A", "B", "X"] 2 =
      get_filtered_kegg_pathways_enum (fun l => l) (fun l => l)
        (Except.ok [("P", ["B", "A", "C"])]) ["A", "B", "X"] 2 :=
  c5_deterministic (fun l => l.reverse) (fun l => l.reverse)
    (fun l => l) (fun l => l)
    (fun l => l.reverse_perm) (fun l => l.reverse_perm)
    (fun l => List.Perm.refl l) (fun l => List.Perm.refl l)
    (Except.ok [("P", ["B", "A", "C"])]) ["A", "B", "X"] 2

/-- C6: the algorithm is exactly a threshold filter over set intersections:
the output equals the spec's threshold filter applied to the per-pathway
intersections of the query set, and every value list meets the minimum
length. -/
theorem c6_threshold_filter (lib : KeggLib) (q : List String) (m : Int) :
    get_filtered_kegg_pathways (Except.ok lib) q m =
        specThresholdFilter (intersectionProfile q lib) m ∧
      ∀ n v, (n, v) ∈ get_filtered_kegg_pathways (Except.ok lib) q m →
        m ≤ (v.length : Int) := by
  refine ⟨get_ok_eq_spec lib q m, ?_⟩
  intro n v hv
  rw [get_ok] at hv
  obtain ⟨gs, _, hc, rfl⟩ := mem_filterPathways.mp hv
  have hl : (sortGenes (common_genes q.dedup gs)).length = interCard q gs := by
    rw [(sortGenes_perm _).length_eq, common_genes_length]
  rw [hl]
  exact hc

theorem c6_threshold_filter_witness :
    (2 : Int) ≤ ((["A", "B"] : List String).length : Int) :=
  (c6_threshold_filter [("P", ["B", "A", "C"])] ["A", "B", "X"] 2).2 "P"
    ["A", "B"] (by decide)

/-- C7: no mutation and no persistent state: running the loop over the
explicit environment leaves the caller-supplied gene collection and the
fetched library unchanged, and the filtered result is the same pure
function of the inputs on every call. -/
theorem c7_no_mutation (q : List String) (m : Int) (lib : KeggLib) :
    (runFilterLoop q m lib).matched_gene_ids = q ∧
      (runFilterLoop q m lib).all_kegg_pathways = lib ∧
      (runFilterLoop q m lib).filtered_pathways =
        get_filtered_kegg_pathways (Except.ok lib) q m := by
  refine ⟨?_, ?_, ?_⟩ <;>
    simp [runFilterLoop, foldl_loopBody, get_ok]

/-- C8: the result is invariant under reordering and duplication of the
query collection. -/
theorem c8_query_order_invariant (fetchResult : Except String KeggLib)
    (q₁ q₂ : List String) (m : Int) (h : ∀ g, g ∈ q₁ ↔ g ∈ q₂) :
    get_filtered_kegg_pathways fetchResult q₁ m =
      get_filtered_kegg_pathways fetchResult q₂ m := by
  cases fetchResult with
  | error e => rfl
  | ok lib =>
    have hq : q₁.toFinset = q₂.toFinset := by
      ext g
      simpa using h g
    rw [get_ok_eq_spec, get_ok_eq_spec]
    simp only [intersectionProfile]
    rw [hq]

theorem c8_query_order_invariant_witness :
    get_filtered_kegg_pathways (Except.ok [("P", ["B", "A", "C"])])
        ["B", "A", "A"] 2 =
      get_filtered_kegg_pathways (Except.ok [("P", ["B", "A", "C"])])
        ["A", "B"] 2 :=
  c8_query_order_invariant (Except.ok [("P", ["B", "A", "C"])])
    ["B", "A", "A"] ["A", "B"] 2
    (by intro g; simp [List.mem_cons]; tauto)

/-- C9: the result is antitone in the threshold: raising the threshold only
removes pathways, and a pathway present at both thresholds keeps the same
gene list. -/
theorem c9_threshold_antitone (lib : KeggLib) (q : List String)
    (m₁ m₂ : Int) (hnd : (keys lib).Nodup) (hm : m₁ ≤ m₂) :
    (∀ n, n ∈ keys (get_filtered_kegg_pathways (Except.ok lib) q m₂) →
        n ∈ keys (get_filtered_kegg_pathways (Except.ok lib) q m₁)) ∧
      ∀ n v₁ v₂, (n, v₁) ∈ get_filtered_kegg_pathways (Except.ok lib) q m₁ →
        (n, v₂) ∈ get_filtered_kegg_pathways (Except.ok lib) q m₂ →
        v₁ = v₂ := by
  constructor
  · intro n hn
    rw [get_ok] at hn ⊢
    obtain ⟨gs, hgs, hc⟩ := mem_keys_filterPathways.mp hn
    exact mem_keys_filterPathways.mpr ⟨gs, hgs, le_trans hm hc⟩
  · intro n v₁ v₂ h₁ h₂
    rw [get_ok] at h₁ h₂
    obtain ⟨gs₁, hgs₁, _, rfl⟩ := mem_filterPathways.mp h₁
    obtain ⟨gs₂, hgs₂, _, rfl⟩ := mem_filterPathways.mp h₂
    rw [eq_of_nodupKeys hnd hgs₁ hgs₂]

theorem c9_threshold_antitone_witness :
    "P" ∈ keys (get_filtered_kegg_pathways
      (Except.ok [("P", ["A", "B", "C"]), ("Q", ["A", "Z"])])
      ["A", "B", "X"] 1) :=
  (c9_threshold_antitone [("P", ["A", "B", "C"]), ("Q", ["A", "Z"])]
    ["A", "B", "X"] 1 2 (by decide) (by decide)).1 "P" (by decide)

theorem filterMap_some_eq_map {α β : Type} (g : α → β) (l : List α) :
    l.filterMap (fun a => some (g a)) = l.map g := by
  induction l with
  | nil => rfl
  | cons a t ih => simp [List.filterMap_cons, ih]

/-- C10: a zero or negative threshold retains every pathway of the fetched
library, pathways with empty intersection getting the empty list; no
validation rejects non-positive thresholds. -/
theorem c10_nonpositive_threshold (lib : KeggLib) (q : List String)
    (m : Int) (hm : m ≤ 0) :
    get_filtered_kegg_pathways (Except.ok lib) q m =
        lib.map (fun p =>
          (p.1, Finset.sort (· ≤ ·) (q.toFinset ∩ p.2.toFinset))) ∧
      ∀ p ∈ lib, q.toFinset ∩ p.2.toFinset = ∅ →
        (p.1, ([] : List String)) ∈
          get_filtered_kegg_pathways (Except.ok lib) q m := by
  have hmain : get_filtered_kegg_pathways (Except.ok lib) q m =
      lib.map (fun p =>
        (p.1, Finset.sort (· ≤ ·) (q.toFinset ∩ p.2.toFinset))) := by
    rw [get_ok]
    unfold filterPathways
    induction lib with
    | nil => rfl
    | cons p t ih =>
      simp only [List.filterMap_cons, List.map_cons]
      have hc : m ≤ ((common_genes q.dedup p.2).length : Int) :=
        le_trans hm (Int.natCast_nonneg _)
      rw [if_pos hc, sortGenes_common_eq_sort, ih]
  refine ⟨hmain, ?_⟩
  intro p hp hint
  rw [hmain]
  exact List.mem_map.mpr ⟨p, hp, by rw [hint, Finset.sort_empty]⟩

theorem c10_nonpositive_threshold_witness :
    ("P0", ([] : List String)) ∈
      get_filtered_kegg_pathways (Except.ok [("P0", ["Z"])]) ["A"] (-1) :=
  (c10_nonpositive_threshold [("P0", ["Z"])] ["A"] (-1) (by decide)).2
    ("P0", ["Z"]) (by decide) (by decide)

end KeggPathways
